/-
Verification of the blob URL lifecycle manager of the Gurukul front-end
(`src/new frontend/src/utils/blobUrlManager.js`) and its multi-resource
binding hook (`src/new frontend/src/hooks/useBlobUrl.js`).

The manager is a singleton holding three JavaScript `Map`s:
  - `activeUrls`         : URL string -> metadata record,
  - `urlsByComponent`    : component id -> `Set` of URL strings,
  - `cleanupCallbacks`   : URL string -> caller-supplied teardown function,
plus `setTimeout`-scheduled delayed actions (the 50 ms deferred release
inside `revokeBlobUrl`, and a purely logging post-create validation that
never mutates state and is therefore not part of the state).

Shallow embedding choices:
  - JavaScript `Map` is an insertion-ordered association list with
    `get` / `set` (in-place overwrite) / `delete` / `has` / `size`;
    JavaScript `Set` of strings is a duplicate-free list in insertion order.
  - `Date.now()` is an explicit `now : Nat` argument to the operations that
    read the clock.
  - `URL.createObjectURL` is a fresh-name generator: the state carries a
    counter `nextId` and the generated handle is `"blob:" ++ toString nextId`.
  - A cleanup callback is opaque except for whether invoking it throws;
    callbacks never touch the registry, so a `throws : Bool` flag captures
    all behaviour the manager can observe.
  - Nullable arguments (`blob`, `url`) are `Option`; JavaScript falsiness of
    a string (`!url`) is `none` or the empty string.
  - Console logging is dropped; observable effects that matter to the
    claims (callback invocation, caught callback errors, platform-level
    `URL.revokeObjectURL` calls) are returned as an explicit event trace.
  - The 50 ms delayed closure inside `revokeBlobUrl` captures the URL and
    the metadata object; of the metadata it only uses `componentId` (which
    no operation ever mutates), so a pending release is recorded as the
    pair (url, componentId).  Running a pending release models the timeout
    firing.
-/
import Mathlib

namespace BlobUrl

/-- A JavaScript `Map` with string keys: an association list in insertion
order, keys unique by construction of the operations. -/
abbrev JSMap (α : Type) := List (String × α)

namespace JSMap

/-- JavaScript Map lookup, `m.get(k)`: the value of the unique entry with
key `k` (the first match, which is the only one since keys are unique). -/
def get : JSMap α → String → Option α
  | [], _ => none
  | p :: m, k => if p.1 = k then some p.2 else get m k

/-- JavaScript Map membership, `m.has(k)`. -/
def hasKey (m : JSMap α) (k : String) : Bool :=
  (get m k).isSome

/-- JavaScript Map update, `m.set(k, v)`: overwrite in place if the key is
present, else append. -/
def set (m : JSMap α) (k : String) (v : α) : JSMap α :=
  if hasKey m k then m.map (fun p => if p.1 = k then (k, v) else p)
  else m ++ [(k, v)]

/-- JavaScript Map removal, `m.delete(k)`. -/
def del (m : JSMap α) (k : String) : JSMap α :=
  m.filter (fun p => p.1 ≠ k)

/-- JavaScript Map size, `m.size`. -/
def size (m : JSMap α) : Nat := m.length

end JSMap

/-- A JavaScript `Set` of strings: duplicate-free list in insertion order. -/
abbrev JSSet := List String

namespace JSSet

/-- JavaScript Set insertion, `s.add(x)`. -/
def add (s : JSSet) (x : String) : JSSet :=
  if x ∈ s then s else s ++ [x]

/-- JavaScript Set removal, `s.delete(x)`. -/
def del (s : JSSet) (x : String) : JSSet :=
  s.filter (fun y => y ≠ x)

end JSSet

/-- JavaScript `String.prototype.startsWith`, modelled at the character
level so that it evaluates inside the kernel. -/
def jsStartsWith (s p : String) : Bool :=
  p.data.isPrefixOf s.data

/-- A binary blob as the manager sees it: `size` in bytes and MIME `type`.
(`new Blob([blob], { type: blob.type })` produces a copy with the same
size and type, so the retained copy needs no separate representation.) -/
structure Blob where
  size : Nat
  type : String
deriving Repr, DecidableEq

/-- A caller-supplied cleanup callback.  It cannot touch the registry, so
the only behaviour the manager observes is whether invoking it throws. -/
structure Callback where
  throws : Bool
deriving Repr, DecidableEq

/-- The metadata record stored in `activeUrls` by `createBlobUrl`.  `extra`
holds the caller's `...metadata` spread (extension keys; the claims under
verification only exercise the default empty object). -/
structure Metadata where
  componentId : String
  createdAt : Nat
  lastAccessed : Nat
  accessCount : Nat
  size : Nat
  type : String
  isActive : Bool
  extra : List (String × String)
deriving Repr, DecidableEq

/-- A delayed release scheduled by `revokeBlobUrl`'s `setTimeout`: the
closure captures the URL and the metadata object, of which it reads only
`componentId` (never mutated by any operation). -/
structure PendingRelease where
  url : String
  componentId : String
deriving Repr, DecidableEq

/-- Observable events of an operation, in order of occurrence. -/
inductive Event where
  /-- the cleanup callback registered for this URL was invoked -/
  | callbackInvoked (url : String)
  /-- the callback threw; the exception was caught and logged -/
  | callbackErrorLogged (url : String)
  /-- the platform-level release `URL.revokeObjectURL(url)` was called -/
  | platformRelease (url : String)
  /-- a revoke was attempted on a URL not in `activeUrls` (warn + return) -/
  | warnUnknown (url : String)
deriving Repr, DecidableEq

/-- The `BlobUrlManager` singleton's state. -/
structure ManagerState where
  activeUrls : JSMap Metadata
  urlsByComponent : JSMap JSSet
  cleanupCallbacks : JSMap Callback
  /-- delayed releases scheduled by `revokeBlobUrl`, in scheduling order -/
  pendingReleases : List PendingRelease
  /-- fresh-name counter modelling `URL.createObjectURL` -/
  nextId : Nat
deriving Repr, DecidableEq

/-- The state of a freshly constructed `BlobUrlManager`. -/
def initState : ManagerState :=
  { activeUrls := [], urlsByComponent := [], cleanupCallbacks := [],
    pendingReleases := [], nextId := 0 }

/-- Embedding of `createBlobUrl(blob, componentId, metadata)`.  Returns the new state and
the result (`some url`, or `none` for the JavaScript `null` returned on an
absent/invalid blob or a zero-size blob).  The post-create
`setTimeout(validateBlobUrl, 100)` only logs and is omitted from the state. -/
def createBlobUrl (s : ManagerState) (blob : Option Blob) (componentId : String)
    (extra : List (String × String)) (now : Nat) : ManagerState × Option String :=
  match blob with
  | none => (s, none)
  | some b =>
    if b.size = 0 then (s, none)
    else
      let url := "blob:" ++ toString s.nextId
      let md : Metadata :=
        { componentId := componentId, createdAt := now, lastAccessed := now,
          accessCount := 0, size := b.size, type := b.type, isActive := true,
          extra := extra }
      let comps :=
        match JSMap.get s.urlsByComponent componentId with
        | none => JSMap.set s.urlsByComponent componentId (JSSet.add [] url)
        | some st => JSMap.set s.urlsByComponent componentId (JSSet.add st url)
      ({ s with
          activeUrls := JSMap.set s.activeUrls url md,
          urlsByComponent := comps,
          nextId := s.nextId + 1 },
       some url)

/-- Embedding of `markUrlAccessed(url)`: updates `lastAccessed` and `accessCount` of the
entry if present (the source does not consult `isActive`). -/
def markUrlAccessed (s : ManagerState) (url : String) (now : Nat) : ManagerState :=
  match JSMap.get s.activeUrls url with
  | none => s
  | some md =>
    let md' : Metadata :=
      { md with lastAccessed := now, accessCount := md.accessCount + 1 }
    { s with activeUrls := JSMap.set s.activeUrls url md' }

/-- Embedding of `revokeBlobUrl(url)`.  Guard: return at once when the argument is null,
empty, or does not start with `"blob:"`.  On an unknown URL: warn and
return.  Otherwise: flip `isActive` to false, run and remove the cleanup
callback (catching a throw), and schedule the delayed release; the maps
`activeUrls` / `urlsByComponent` keep their entries until the delayed
release fires. -/
def revokeBlobUrl (s : ManagerState) (url : Option String) :
    ManagerState × List Event :=
  match url with
  | none => (s, [])
  | some u =>
    if u = "" ∨ ¬ jsStartsWith u "blob:" then (s, [])
    else
      match JSMap.get s.activeUrls u with
      | none => (s, [Event.warnUnknown u])
      | some md =>
        let au := JSMap.set s.activeUrls u ({ md with isActive := false })
        let (cbs, evs) :=
          match JSMap.get s.cleanupCallbacks u with
          | none => (s.cleanupCallbacks, ([] : List Event))
          | some cb =>
            (JSMap.del s.cleanupCallbacks u,
             if cb.throws then [Event.callbackInvoked u, Event.callbackErrorLogged u]
             else [Event.callbackInvoked u])
        ({ s with
            activeUrls := au,
            cleanupCallbacks := cbs,
            pendingReleases := s.pendingReleases ++ [⟨u, md.componentId⟩] },
         evs)

/-- The body of the 50 ms `setTimeout` closure in `revokeBlobUrl`: platform
release, removal from `activeUrls`, and removal from the captured
component's URL set (dropping the set when it becomes empty). -/
def runRelease (s : ManagerState) (p : PendingRelease) : ManagerState × List Event :=
  let au := JSMap.del s.activeUrls p.url
  let comps :=
    match JSMap.get s.urlsByComponent p.componentId with
    | none => s.urlsByComponent
    | some st =>
      let st' := JSSet.del st p.url
      if st'.length = 0 then JSMap.del s.urlsByComponent p.componentId
      else JSMap.set s.urlsByComponent p.componentId st'
  ({ s with activeUrls := au, urlsByComponent := comps },
   [Event.platformRelease p.url])

/-- Fire a list of delayed releases in scheduling order. -/
def runReleases (s : ManagerState) (ps : List PendingRelease) : ManagerState :=
  ps.foldl (fun acc p => (runRelease acc p).1) s

/-- Embedding of `revokeComponentUrls(componentId)`: snapshot the component's URL set
(`Array.from`) and revoke each URL of the snapshot in order. -/
def revokeComponentUrls (s : ManagerState) (componentId : String) :
    ManagerState × List Event :=
  match JSMap.get s.urlsByComponent componentId with
  | none => (s, [])
  | some snapshot =>
    snapshot.foldl
      (fun acc u =>
        let (s', evs) := revokeBlobUrl acc.1 (some u)
        (s', acc.2 ++ evs))
      (s, [])

/-- Embedding of `registerCleanupCallback(url, callback)`: a `Map.set`, so a second
registration for the same URL overwrites the first. -/
def registerCleanupCallback (s : ManagerState) (url : String) (cb : Callback) :
    ManagerState :=
  { s with cleanupCallbacks := JSMap.set s.cleanupCallbacks url cb }

/-- Embedding of `isUrlActive(url)`: membership in `activeUrls` (`Map.has`), not the
entry's `isActive` flag. -/
def isUrlActive (s : ManagerState) (url : String) : Bool :=
  JSMap.hasKey s.activeUrls url

/-- Embedding of `getUrlMetadata(url)`. -/
def getUrlMetadata (s : ManagerState) (url : String) : Option Metadata :=
  JSMap.get s.activeUrls url

/-- Embedding of `getComponentUrls(componentId)`. -/
def getComponentUrls (s : ManagerState) (componentId : String) : List String :=
  (JSMap.get s.urlsByComponent componentId).getD []

/-- Per-key aggregate in `getStats` (`{ count, size }`). -/
structure CountSize where
  count : Nat
  size : Nat
deriving Repr, DecidableEq

/-- The object returned by `getStats()`. -/
structure Stats where
  totalUrls : Nat
  totalComponents : Nat
  totalSize : Nat
  byComponent : JSMap CountSize
  byType : JSMap CountSize
deriving Repr, DecidableEq

/-- One iteration of the `for (const [url, metadata] of this.activeUrls)`
loop in `getStats`. -/
def statsStep (acc : Stats) (p : String × Metadata) : Stats :=
  let md := p.2
  let byComp :=
    match JSMap.get acc.byComponent md.componentId with
    | none => JSMap.set acc.byComponent md.componentId ⟨1, md.size⟩
    | some cs => JSMap.set acc.byComponent md.componentId
        ⟨cs.count + 1, cs.size + md.size⟩
  let ty := if md.type = "" then "unknown" else md.type
  let byTy :=
    match JSMap.get acc.byType ty with
    | none => JSMap.set acc.byType ty ⟨1, md.size⟩
    | some cs => JSMap.set acc.byType ty ⟨cs.count + 1, cs.size + md.size⟩
  { acc with totalSize := acc.totalSize + md.size,
             byComponent := byComp, byType := byTy }

/-- Embedding of `getStats()`: totals over every entry of `activeUrls` (the loop does not
consult the `isActive` flag). -/
def getStats (s : ManagerState) : Stats :=
  s.activeUrls.foldl statsStep
    { totalUrls := JSMap.size s.activeUrls,
      totalComponents := JSMap.size s.urlsByComponent,
      totalSize := 0, byComponent := [], byType := [] }

/-- Embedding of `cleanup()`: synchronously call `URL.revokeObjectURL` on every key of
`activeUrls`, then clear all three maps.  (Already scheduled delayed
releases are not cancelled.) -/
def cleanup (s : ManagerState) : ManagerState × List Event :=
  ({ s with activeUrls := [], urlsByComponent := [], cleanupCallbacks := [] },
   s.activeUrls.map (fun p => Event.platformRelease p.1))

/-- Number of entries of `activeUrls` whose `isActive` flag is true. -/
def activeFlagCount (s : ManagerState) : Nat :=
  (s.activeUrls.filter (fun p => p.2.isActive)).length

/-
Multi-resource binding adapter: `useMultipleBlobUrls` in
`src/new frontend/src/hooks/useBlobUrl.js`.  Its hook-local state that
matters to the registry is `urlsRef.current`, a `Map` from caller-supplied
item id to blob URL.  React state setters (`setUrls`, `setErrors`,
`setIsLoading`) mirror `urlsRef` / record error strings and do not feed
back into the registry, so they are not part of the model.
-/

/-- An element of the `blobs` array handed to `useMultipleBlobUrls`:
`{ blob, id, metadata }`.  (A literal `null` array element is skipped by
the same guard that skips a null `blob`, so it needs no own constructor.) -/
structure Item where
  id : String
  blob : Option Blob
  extra : List (String × String)
deriving Repr, DecidableEq

/-- Hook-local state of `useMultipleBlobUrls`: `urlsRef.current`, the map
from item id to the blob URL currently bound for it. -/
structure MultiState where
  urlsRef : JSMap String
deriving Repr, DecidableEq

/-- The teardown phase of `createUrls`: `for (const url of
urlsRef.current.values()) revokeBlobUrl(url)`, in insertion order. -/
def revokeAllBound (mgr : ManagerState) (ref : JSMap String) :
    ManagerState × List Event :=
  ref.foldl
    (fun acc p =>
      let r := revokeBlobUrl acc.1 (some p.2)
      (r.1, acc.2 ++ r.2))
    (mgr, [])

/-- Accumulator of the creation loop of `createUrls`. -/
structure MultiAcc where
  mgr : ManagerState
  ref : JSMap String
  evs : List Event
deriving Repr, DecidableEq

/-- One iteration of the `for (const blobData of blobArray)` loop in
`createUrls`: skip when `!blobData || !blobData.blob || !blobData.id`;
otherwise create a URL with metadata `{ ...blobData.metadata, blobId:
blobData.id }` and record the binding; a `null` result throws, which the
surrounding `try` catches (an error string is recorded, no binding). -/
def createOneItem (cid : String) (now : Nat) (acc : MultiAcc) (it : Item) :
    MultiAcc :=
  if it.blob.isNone ∨ it.id = "" then acc
  else
    let r := createBlobUrl acc.mgr it.blob cid (JSMap.set it.extra "blobId" it.id) now
    match r.2 with
    | some url => { mgr := r.1, ref := JSMap.set acc.ref it.id url, evs := acc.evs }
    | none => { mgr := r.1, ref := acc.ref, evs := acc.evs }

/-- Embedding of `useMultipleBlobUrls.createUrls(blobArray)` (the spec's
`rebindAll`): revoke every URL of `urlsRef.current`, clear it, then create
a fresh URL for every valid item of the new array.  `cid` is the hook's
stable `componentIdRef.current`. -/
def createUrls (mgr : ManagerState) (ms : MultiState) (cid : String)
    (items : List Item) (now : Nat) : ManagerState × MultiState × List Event :=
  let r := revokeAllBound mgr ms.urlsRef
  let a := items.foldl (createOneItem cid now) ⟨r.1, [], r.2⟩
  (a.mgr, ⟨a.ref⟩, a.evs)

/-- State reached by revoking a list of URLs in order, ignoring events: the
state component of the folds inside `revokeComponentUrls` and
`revokeAllBound` (proof-layer helper). -/
def revokeList (s : ManagerState) (L : List String) : ManagerState :=
  L.foldl (fun st u => (revokeBlobUrl st (some u)).1) s

/-
Concrete scenario states used by counterexamples and witnesses.
-/

/-- One successful creation on a fresh manager: a 1024-byte blob owned by
component `"comp1"`; the generated handle is `"blob:0"`. -/
def demoState1 : ManagerState :=
  (createBlobUrl initState (some ⟨1024, "audio/mpeg"⟩) "comp1" [] 0).1

/-- The metadata stored for `"blob:0"` in `demoState1`. -/
def demoMd : Metadata :=
  { componentId := "comp1", createdAt := 0, lastAccessed := 0,
    accessCount := 0, size := 1024, type := "audio/mpeg", isActive := true,
    extra := [] }

/-- The state right after `revokeBlobUrl("blob:0")` returns on `demoState1`
(the delayed release has not fired yet). -/
def demoRevoked : ManagerState :=
  (revokeBlobUrl demoState1 (some "blob:0")).1

/-- Scenario state for the cleanup-callback claims: `demoState1` with a
throwing callback registered for `"blob:0"`. -/
def demoWithCb : ManagerState :=
  registerCleanupCallback demoState1 "blob:0" ⟨true⟩

/-- Two-owner scenario: `"blob:0"` owned by `"comp1"`, `"blob:1"` owned by
`"comp2"`. -/
def c8State : ManagerState :=
  (createBlobUrl demoState1 (some ⟨2048, "image/png"⟩) "comp2" [] 1).1

/-- The metadata stored for `"blob:1"` in `c8State`. -/
def c8Md2 : Metadata :=
  { componentId := "comp2", createdAt := 1, lastAccessed := 1,
    accessCount := 0, size := 2048, type := "image/png", isActive := true,
    extra := [] }

/-- Scenario item for the multi-resource adapter: id `"a"`, 4-byte blob. -/
def c4Item : Item :=
  { id := "a", blob := some ⟨4, "text/plain"⟩, extra := [] }

/-- First `createUrls` run: binds item `"a"` to `"blob:0"`. -/
def c4Run1 : ManagerState × MultiState × List Event :=
  createUrls initState ⟨[]⟩ "multi" [c4Item] 0

/-- Second `createUrls` run with the same single item `"a"`. -/
def c4Run2 : ManagerState × MultiState × List Event :=
  createUrls c4Run1.1 c4Run1.2.1 "multi" [c4Item] 1

/-
Lemmas about the JavaScript `Map` model.
-/

theorem JSMap.get_eq_none {α : Type} {m : JSMap α} {k : String} :
    JSMap.get m k = none ↔ ∀ p ∈ m, p.1 ≠ k := by
  induction m with
  | nil => simp [JSMap.get]
  | cons p m ih =>
    by_cases h : p.1 = k
    · simp [JSMap.get, h]
    · simp [JSMap.get, h, ih]

theorem JSMap.get_map_replace {α : Type} (m : JSMap α) (k : String) (x : α)
    (v : String) :
    JSMap.get (m.map (fun p => if p.1 = k then (k, x) else p)) v =
      if v = k then (JSMap.get m k).map (fun _ => x) else JSMap.get m v := by
  induction m with
  | nil => by_cases hv : v = k <;> simp [JSMap.get, hv]
  | cons p m ih =>
    by_cases hp : p.1 = k
    · by_cases hv : v = k
      · simp [JSMap.get, hp, hv]
      · have hkv : ¬ k = v := fun he => hv he.symm
        simp [JSMap.get, hp, hv, hkv, ih]
    · by_cases hpv : p.1 = v
      · have hvk : ¬ v = k := fun he => hp (hpv.trans he)
        simp [JSMap.get, hp, hpv, hvk]
      · simp [JSMap.get, hp, hpv, ih]

theorem JSMap.get_append {α : Type} (m l : JSMap α) (v : String) :
    JSMap.get (m ++ l) v =
      match JSMap.get m v with
      | some w => some w
      | none => JSMap.get l v := by
  induction m with
  | nil => simp [JSMap.get]
  | cons p m ih =>
    by_cases hp : p.1 = v
    · simp [JSMap.get, hp]
    · simp [JSMap.get, hp, ih]

theorem JSMap.get_set {α : Type} (m : JSMap α) (k : String) (x : α) (v : String) :
    JSMap.get (JSMap.set m k x) v = if v = k then some x else JSMap.get m v := by
  unfold JSMap.set
  by_cases hk : JSMap.hasKey m k
  · rw [if_pos hk, JSMap.get_map_replace]
    by_cases hv : v = k
    · rw [if_pos hv, if_pos hv]
      unfold JSMap.hasKey at hk
      cases hget : JSMap.get m k with
      | none => rw [hget] at hk; simp at hk
      | some w => simp
    · rw [if_neg hv, if_neg hv]
  · rw [if_neg hk, JSMap.get_append]
    unfold JSMap.hasKey at hk
    by_cases hv : v = k
    · subst hv
      cases hget : JSMap.get m v with
      | none => simp [JSMap.get]
      | some w => rw [hget] at hk; simp at hk
    · cases hget : JSMap.get m v with
      | none => simp [JSMap.get, Ne.symm hv, hv]
      | some w => simp [hv]

theorem JSMap.get_set_self {α : Type} (m : JSMap α) (k : String) (x : α) :
    JSMap.get (JSMap.set m k x) k = some x := by
  rw [JSMap.get_set, if_pos rfl]

theorem JSMap.get_set_ne {α : Type} (m : JSMap α) (k : String) (x : α)
    {v : String} (h : v ≠ k) :
    JSMap.get (JSMap.set m k x) v = JSMap.get m v := by
  rw [JSMap.get_set, if_neg h]

theorem JSMap.mem_set {α : Type} {m : JSMap α} {k : String} {x : α}
    {p : String × α} (hp : p ∈ JSMap.set m k x) (hk : p.1 = k) : p.2 = x := by
  unfold JSMap.set at hp
  by_cases hm : JSMap.hasKey m k
  · rw [if_pos hm] at hp
    obtain ⟨q, hq, hmap⟩ := List.mem_map.mp hp
    by_cases hqk : q.1 = k
    · rw [if_pos hqk] at hmap; rw [← hmap]
    · rw [if_neg hqk] at hmap; rw [← hmap] at hk; exact absurd hk hqk
  · rw [if_neg hm] at hp
    unfold JSMap.hasKey at hm
    have hnone : JSMap.get m k = none := by
      cases hget : JSMap.get m k with
      | none => rfl
      | some w => rw [hget] at hm; simp at hm
    rcases List.mem_append.mp hp with hin | hin
    · exact absurd hk (JSMap.get_eq_none.mp hnone p hin)
    · simp at hin; rw [hin]

theorem JSMap.map_replace_eq_self {α : Type} {m : JSMap α} {k : String} {x : α}
    (h : ∀ p ∈ m, p.1 = k → p.2 = x) :
    m.map (fun p => if p.1 = k then (k, x) else p) = m := by
  induction m with
  | nil => rfl
  | cons p m ih =>
    have htail : ∀ q ∈ m, q.1 = k → q.2 = x := fun q hq => h q (List.mem_cons_of_mem p hq)
    obtain ⟨a, b⟩ := p
    by_cases hp : a = k
    · have hx : b = x := h (a, b) (List.mem_cons_self (a, b) m) hp
      subst hp; subst hx
      simp [ih htail]
    · simp [hp, ih htail]

theorem JSMap.set_eq_self {α : Type} {m : JSMap α} {k : String} {x : α}
    (hk : JSMap.hasKey m k = true) (h : ∀ p ∈ m, p.1 = k → p.2 = x) :
    JSMap.set m k x = m := by
  unfold JSMap.set
  rw [if_pos hk, JSMap.map_replace_eq_self h]

theorem JSMap.get_del {α : Type} (m : JSMap α) (k v : String) :
    JSMap.get (JSMap.del m k) v = if v = k then none else JSMap.get m v := by
  induction m with
  | nil => by_cases hv : v = k <;> simp [JSMap.del, JSMap.get, hv]
  | cons p m ih =>
    by_cases hp : p.1 = k
    · have h1 : JSMap.del (p :: m) k = JSMap.del m k := by
        simp [JSMap.del, List.filter_cons, hp]
      rw [h1, ih]
      by_cases hv : v = k
      · simp [hv]
      · rw [if_neg hv, if_neg hv]
        have hpv : ¬ p.1 = v := fun he => hv (he ▸ hp)
        simp [JSMap.get, hpv]
    · have h1 : JSMap.del (p :: m) k = p :: JSMap.del m k := by
        simp [JSMap.del, List.filter_cons, hp]
      rw [h1]
      by_cases hpv : p.1 = v
      · have hvk : ¬ v = k := fun he => hp (hpv.trans he)
        simp [JSMap.get, hpv, hvk]
      · simp only [JSMap.get, if_neg hpv]
        exact ih

theorem JSMap.get_del_self {α : Type} (m : JSMap α) (k : String) :
    JSMap.get (JSMap.del m k) k = none := by
  rw [JSMap.get_del, if_pos rfl]

theorem JSMap.get_del_ne {α : Type} (m : JSMap α) (k : String) {v : String}
    (h : v ≠ k) : JSMap.get (JSMap.del m k) v = JSMap.get m v := by
  rw [JSMap.get_del, if_neg h]

/-
Characterization lemmas for `revokeBlobUrl`: one equation per branch of the
source (guard, unknown URL, known URL).
-/

theorem jsStartsWith_ne_empty {u : String} (h : jsStartsWith u "blob:" = true) :
    u ≠ "" := by
  intro he
  subst he
  exact absurd h (by decide)

theorem revokeBlobUrl_none (s : ManagerState) : revokeBlobUrl s none = (s, []) :=
  rfl

theorem revokeBlobUrl_guard (s : ManagerState) {u : String}
    (h : ¬ jsStartsWith u "blob:" = true) :
    revokeBlobUrl s (some u) = (s, []) := by
  simp only [revokeBlobUrl]
  rw [if_pos (Or.inr h)]

theorem revokeBlobUrl_unknown {s : ManagerState} {u : String}
    (hpre : jsStartsWith u "blob:" = true)
    (hget : JSMap.get s.activeUrls u = none) :
    revokeBlobUrl s (some u) = (s, [Event.warnUnknown u]) := by
  simp only [revokeBlobUrl]
  rw [if_neg (by simp [hpre, jsStartsWith_ne_empty hpre]), hget]

theorem revokeBlobUrl_known {s : ManagerState} {u : String} {md : Metadata}
    (hpre : jsStartsWith u "blob:" = true)
    (hget : JSMap.get s.activeUrls u = some md) :
    revokeBlobUrl s (some u) =
      ({ s with
          activeUrls := JSMap.set s.activeUrls u ({ md with isActive := false }),
          cleanupCallbacks :=
            match JSMap.get s.cleanupCallbacks u with
            | none => s.cleanupCallbacks
            | some _ => JSMap.del s.cleanupCallbacks u,
          pendingReleases := s.pendingReleases ++ [⟨u, md.componentId⟩] },
       match JSMap.get s.cleanupCallbacks u with
       | none => []
       | some cb =>
         if cb.throws then [Event.callbackInvoked u, Event.callbackErrorLogged u]
         else [Event.callbackInvoked u]) := by
  simp only [revokeBlobUrl]
  rw [if_neg (by simp [hpre, jsStartsWith_ne_empty hpre]), hget]
  cases hcb : JSMap.get s.cleanupCallbacks u <;> rfl

/-
Frame lemmas: which parts of the state a single revoke can touch.
-/

theorem revoke_urlsByComponent (s : ManagerState) (u : Option String) :
    ((revokeBlobUrl s u).1).urlsByComponent = s.urlsByComponent := by
  match u with
  | none => rfl
  | some v =>
    by_cases hpre : jsStartsWith v "blob:" = true
    · cases hget : JSMap.get s.activeUrls v with
      | none => rw [revokeBlobUrl_unknown hpre hget]
      | some md => rw [revokeBlobUrl_known hpre hget]
    · rw [revokeBlobUrl_guard s hpre]

theorem revoke_nextId (s : ManagerState) (u : Option String) :
    ((revokeBlobUrl s u).1).nextId = s.nextId := by
  match u with
  | none => rfl
  | some v =>
    by_cases hpre : jsStartsWith v "blob:" = true
    · cases hget : JSMap.get s.activeUrls v with
      | none => rw [revokeBlobUrl_unknown hpre hget]
      | some md => rw [revokeBlobUrl_known hpre hget]
    · rw [revokeBlobUrl_guard s hpre]

theorem revoke_get_ne {s : ManagerState} {u v : String} (hvu : v ≠ u) :
    JSMap.get ((revokeBlobUrl s (some u)).1).activeUrls v =
      JSMap.get s.activeUrls v := by
  by_cases hpre : jsStartsWith u "blob:" = true
  · cases hget : JSMap.get s.activeUrls u with
    | none => rw [revokeBlobUrl_unknown hpre hget]
    | some md => rw [revokeBlobUrl_known hpre hget]; exact JSMap.get_set_ne _ _ _ hvu
  · rw [revokeBlobUrl_guard s hpre]

theorem revoke_cb_ne {s : ManagerState} {u v : String} (hvu : v ≠ u) :
    JSMap.get ((revokeBlobUrl s (some u)).1).cleanupCallbacks v =
      JSMap.get s.cleanupCallbacks v := by
  by_cases hpre : jsStartsWith u "blob:" = true
  · cases hget : JSMap.get s.activeUrls u with
    | none => rw [revokeBlobUrl_unknown hpre hget]
    | some md =>
      rw [revokeBlobUrl_known hpre hget]
      cases hcb : JSMap.get s.cleanupCallbacks u with
      | none => rfl
      | some cb => exact JSMap.get_del_ne _ _ hvu
  · rw [revokeBlobUrl_guard s hpre]

theorem revoke_self_flag {s : ManagerState} {u : String} {md : Metadata}
    (hpre : jsStartsWith u "blob:" = true)
    (hget : JSMap.get s.activeUrls u = some md) :
    JSMap.get ((revokeBlobUrl s (some u)).1).activeUrls u =
      some ({ md with isActive := false }) := by
  rw [revokeBlobUrl_known hpre hget]
  exact JSMap.get_set_self _ _ _

theorem revoke_isSome {s : ManagerState} {v : String} (u : String)
    (h : (JSMap.get s.activeUrls v).isSome = true) :
    (JSMap.get ((revokeBlobUrl s (some u)).1).activeUrls v).isSome = true := by
  by_cases hvu : v = u
  · subst hvu
    by_cases hpre : jsStartsWith v "blob:" = true
    · cases hget : JSMap.get s.activeUrls v with
      | none => rw [hget] at h; simp at h
      | some md => rw [revoke_self_flag hpre hget]; rfl
    · rw [revokeBlobUrl_guard s hpre]; exact h
  · rw [revoke_get_ne hvu]; exact h

theorem revoke_flag_false {s : ManagerState} {v : String} (u : String)
    (h : (JSMap.get s.activeUrls v).map (fun m => m.isActive) = some false) :
    (JSMap.get ((revokeBlobUrl s (some u)).1).activeUrls v).map
      (fun m => m.isActive) = some false := by
  by_cases hvu : v = u
  · subst hvu
    by_cases hpre : jsStartsWith v "blob:" = true
    · cases hget : JSMap.get s.activeUrls v with
      | none => rw [hget] at h; simp at h
      | some md => rw [revoke_self_flag hpre hget]; rfl
    · rw [revokeBlobUrl_guard s hpre]; exact h
  · rw [revoke_get_ne hvu]; exact h

theorem revoke_componentId (s : ManagerState) (u : Option String) (v : String) :
    (JSMap.get ((revokeBlobUrl s u).1).activeUrls v).map (fun m => m.componentId) =
      (JSMap.get s.activeUrls v).map (fun m => m.componentId) := by
  match u with
  | none => rfl
  | some w =>
    by_cases hvw : v = w
    · subst hvw
      by_cases hpre : jsStartsWith v "blob:" = true
      · cases hget : JSMap.get s.activeUrls v with
        | none => rw [revokeBlobUrl_unknown hpre hget]; simp [hget]
        | some md => rw [revoke_self_flag hpre hget]; rfl
      · rw [revokeBlobUrl_guard s hpre]
    · rw [revoke_get_ne hvw]

/-
Lemmas about revoking a list of URLs in sequence.
-/

theorem revokeList_nil (s : ManagerState) : revokeList s [] = s := rfl

theorem revokeList_cons (s : ManagerState) (u : String) (L : List String) :
    revokeList s (u :: L) = revokeList ((revokeBlobUrl s (some u)).1) L := rfl

theorem revokeList_urlsByComponent (L : List String) (s : ManagerState) :
    (revokeList s L).urlsByComponent = s.urlsByComponent := by
  induction L generalizing s with
  | nil => rfl
  | cons u L ih => rw [revokeList_cons, ih, revoke_urlsByComponent]

theorem revokeList_get_ne {L : List String} {v : String} (s : ManagerState)
    (hv : v ∉ L) :
    JSMap.get (revokeList s L).activeUrls v = JSMap.get s.activeUrls v := by
  induction L generalizing s with
  | nil => rfl
  | cons u L ih =>
    have hvu : v ≠ u := fun he => hv (he ▸ List.mem_cons_self u L)
    have hvL : v ∉ L := fun hin => hv (List.mem_cons_of_mem u hin)
    rw [revokeList_cons, ih _ hvL, revoke_get_ne hvu]

theorem revokeList_cb_ne {L : List String} {v : String} (s : ManagerState)
    (hv : v ∉ L) :
    JSMap.get (revokeList s L).cleanupCallbacks v =
      JSMap.get s.cleanupCallbacks v := by
  induction L generalizing s with
  | nil => rfl
  | cons u L ih =>
    have hvu : v ≠ u := fun he => hv (he ▸ List.mem_cons_self u L)
    have hvL : v ∉ L := fun hin => hv (List.mem_cons_of_mem u hin)
    rw [revokeList_cons, ih _ hvL, revoke_cb_ne hvu]

theorem revokeList_isSome (L : List String) {v : String} (s : ManagerState)
    (h : (JSMap.get s.activeUrls v).isSome = true) :
    (JSMap.get (revokeList s L).activeUrls v).isSome = true := by
  induction L generalizing s with
  | nil => exact h
  | cons u L ih => rw [revokeList_cons]; exact ih _ (revoke_isSome u h)

theorem revokeList_flag_false (L : List String) {v : String} (s : ManagerState)
    (h : (JSMap.get s.activeUrls v).map (fun m => m.isActive) = some false) :
    (JSMap.get (revokeList s L).activeUrls v).map (fun m => m.isActive) =
      some false := by
  induction L generalizing s with
  | nil => exact h
  | cons u L ih => rw [revokeList_cons]; exact ih _ (revoke_flag_false u h)

theorem revokeList_componentId (L : List String) (v : String) (s : ManagerState) :
    (JSMap.get (revokeList s L).activeUrls v).map (fun m => m.componentId) =
      (JSMap.get s.activeUrls v).map (fun m => m.componentId) := by
  induction L generalizing s with
  | nil => rfl
  | cons u L ih => rw [revokeList_cons, ih, revoke_componentId]

theorem revokeList_deactivates {v : String}
    (hpre : jsStartsWith v "blob:" = true) :
    ∀ (L : List String) (s : ManagerState), v ∈ L →
      (JSMap.get s.activeUrls v).isSome = true →
      (JSMap.get (revokeList s L).activeUrls v).map (fun m => m.isActive) =
        some false := by
  intro L
  induction L with
  | nil => intro s hin _; cases hin
  | cons u L ih =>
    intro s hin hsome
    rw [revokeList_cons]
    by_cases huv : v = u
    · subst huv
      obtain ⟨md, hmd⟩ := Option.isSome_iff_exists.mp hsome
      exact revokeList_flag_false L _ (by rw [revoke_self_flag hpre hmd]; rfl)
    · rcases List.mem_cons.mp hin with he | hin'
      · exact absurd he huv
      · exact ih _ hin' (revoke_isSome u hsome)

theorem foldRevokePairs_fst (L : List String) (s : ManagerState)
    (e : List Event) :
    (L.foldl (fun acc u =>
        let (s', evs) := revokeBlobUrl acc.1 (some u)
        (s', acc.2 ++ evs)) (s, e)).1 = revokeList s L := by
  induction L generalizing s e with
  | nil => rfl
  | cons u L ih =>
    rw [List.foldl_cons, revokeList_cons]
    exact ih _ _

theorem revokeComponentUrls_fst (s : ManagerState) (cid : String) :
    (revokeComponentUrls s cid).1 =
      revokeList s ((JSMap.get s.urlsByComponent cid).getD []) := by
  unfold revokeComponentUrls
  cases hget : JSMap.get s.urlsByComponent cid with
  | none => rfl
  | some snapshot => exact foldRevokePairs_fst snapshot s []

theorem revokeAllBound_fold_fst (ref : JSMap String) (s : ManagerState)
    (e : List Event) :
    (ref.foldl (fun acc p =>
        let r := revokeBlobUrl acc.1 (some p.2)
        (r.1, acc.2 ++ r.2)) (s, e)).1 =
      revokeList s (ref.map (fun p => p.2)) := by
  induction ref generalizing s e with
  | nil => rfl
  | cons p ref ih =>
    rw [List.foldl_cons, List.map_cons, revokeList_cons]
    exact ih _ _

theorem revokeAllBound_fst (mgr : ManagerState) (ref : JSMap String) :
    (revokeAllBound mgr ref).1 = revokeList mgr (ref.map (fun p => p.2)) :=
  revokeAllBound_fold_fst ref mgr []

/-
Lemmas about the accumulation in `getStats`.
-/

theorem statsStep_totalUrls (a : Stats) (p : String × Metadata) :
    (statsStep a p).totalUrls = a.totalUrls := rfl

theorem statsFold_totalUrls (l : List (String × Metadata)) (a : Stats) :
    (l.foldl statsStep a).totalUrls = a.totalUrls := by
  induction l generalizing a with
  | nil => rfl
  | cons p l ih => rw [List.foldl_cons, ih, statsStep_totalUrls]

theorem statsStep_totalSize (a : Stats) (p : String × Metadata) :
    (statsStep a p).totalSize = a.totalSize + p.2.size := rfl

theorem statsFold_totalSize (l : List (String × Metadata)) (a : Stats) :
    (l.foldl statsStep a).totalSize =
      a.totalSize + (l.map (fun p => p.2.size)).sum := by
  induction l generalizing a with
  | nil => simp
  | cons p l ih =>
    rw [List.foldl_cons, ih, statsStep_totalSize, List.map_cons, List.sum_cons]
    omega

theorem getStats_congr {s t : ManagerState} (h1 : s.activeUrls = t.activeUrls)
    (h2 : s.urlsByComponent = t.urlsByComponent) : getStats s = getStats t := by
  unfold getStats JSMap.size
  rw [h1, h2]

/-
Characterization lemmas for `markUrlAccessed` and `runRelease`.
-/

theorem markUrlAccessed_none {s : ManagerState} {u : String} (now : Nat)
    (h : JSMap.get s.activeUrls u = none) : markUrlAccessed s u now = s := by
  simp only [markUrlAccessed]
  rw [h]

theorem markUrlAccessed_some {s : ManagerState} {u : String} {md : Metadata}
    (now : Nat) (h : JSMap.get s.activeUrls u = some md) :
    markUrlAccessed s u now =
      { s with activeUrls :=
          (JSMap.set s.activeUrls u
            { md with lastAccessed := now, accessCount := md.accessCount + 1 }) } := by
  simp only [markUrlAccessed]
  rw [h]

theorem runRelease_activeUrls (s : ManagerState) (p : PendingRelease) :
    (runRelease s p).1.activeUrls = JSMap.del s.activeUrls p.url := rfl

theorem runRelease_comps (s : ManagerState) (p : PendingRelease) :
    (runRelease s p).1.urlsByComponent =
      match JSMap.get s.urlsByComponent p.componentId with
      | none => s.urlsByComponent
      | some st =>
        if (JSSet.del st p.url).length = 0 then
          JSMap.del s.urlsByComponent p.componentId
        else JSMap.set s.urlsByComponent p.componentId (JSSet.del st p.url) := rfl

theorem runRelease_not_active (s : ManagerState) (p : PendingRelease) :
    isUrlActive (runRelease s p).1 p.url = false := by
  unfold isUrlActive JSMap.hasKey
  rw [runRelease_activeUrls, JSMap.get_del_self]
  rfl

theorem runRelease_comp_not_mem (s : ManagerState) (p : PendingRelease)
    (st : JSSet)
    (h : JSMap.get (runRelease s p).1.urlsByComponent p.componentId = some st) :
    p.url ∉ st := by
  rw [runRelease_comps] at h
  cases hc : JSMap.get s.urlsByComponent p.componentId with
  | none => rw [hc] at h; simp only at h; rw [hc] at h; cases h
  | some st0 =>
    rw [hc] at h
    simp only at h
    by_cases hlen : (JSSet.del st0 p.url).length = 0
    · rw [if_pos hlen, JSMap.get_del_self] at h; cases h
    · rw [if_neg hlen, JSMap.get_set_self] at h
      have hst : JSSet.del st0 p.url = st := Option.some.inj h
      rw [← hst]
      intro hmem
      have := List.mem_filter.mp hmem
      simp at this

theorem revoke_pending (s : ManagerState) (u : String) :
    ((revokeBlobUrl s (some u)).1).pendingReleases = s.pendingReleases ∨
    ∃ md, JSMap.get s.activeUrls u = some md ∧
      ((revokeBlobUrl s (some u)).1).pendingReleases =
        s.pendingReleases ++ [⟨u, md.componentId⟩] := by
  by_cases hpre : jsStartsWith u "blob:" = true
  · cases hget : JSMap.get s.activeUrls u with
    | none => left; rw [revokeBlobUrl_unknown hpre hget]
    | some md =>
      right
      exact ⟨md, rfl, by rw [revokeBlobUrl_known hpre hget]⟩
  · left; rw [revokeBlobUrl_guard s hpre]

theorem revokeList_pending_owner (A : String) :
    ∀ (L : List String) (s : ManagerState),
      (∀ u ∈ L, ∀ md, JSMap.get s.activeUrls u = some md →
        md.componentId = A) →
      ∀ p ∈ (revokeList s L).pendingReleases,
        p ∈ s.pendingReleases ∨ (p.componentId = A ∧ p.url ∈ L) := by
  intro L
  induction L with
  | nil => intro s _ p hp; exact Or.inl hp
  | cons u L ih =>
    intro s hL p hp
    rw [revokeList_cons] at hp
    have hstep : ∀ w ∈ L, ∀ md,
        JSMap.get ((revokeBlobUrl s (some u)).1).activeUrls w = some md →
        md.componentId = A := by
      intro w hw md hmd
      have hc := revoke_componentId s (some u) w
      rw [hmd] at hc
      cases hg : JSMap.get s.activeUrls w with
      | none => rw [hg] at hc; cases hc
      | some md0 =>
        rw [hg] at hc
        have hcomp : md.componentId = md0.componentId := by simpa using hc
        rw [hcomp]
        exact hL w (List.mem_cons_of_mem u hw) md0 hg
    rcases ih _ hstep p hp with hin | hA
    · rcases revoke_pending s u with heq | ⟨md0, hg, heq⟩
      · rw [heq] at hin; exact Or.inl hin
      · rw [heq] at hin
        rcases List.mem_append.mp hin with h1 | h1
        · exact Or.inl h1
        · have hp' : p = ⟨u, md0.componentId⟩ := by simpa using h1
          right
          refine ⟨?_, ?_⟩
          · rw [hp']
            exact hL u (List.mem_cons_self u L) md0 hg
          · rw [hp']
            exact List.mem_cons_self u L
    · exact Or.inr ⟨hA.1, List.mem_cons_of_mem u hA.2⟩

/-
Lemmas about `createBlobUrl` and the multi-resource adapter's creation loop.
-/

theorem createBlobUrl_none_blob (s : ManagerState) (cid : String)
    (ex : List (String × String)) (now : Nat) :
    createBlobUrl s none cid ex now = (s, none) := rfl

theorem createBlobUrl_zero {s : ManagerState} {b : Blob} (cid : String)
    (ex : List (String × String)) (now : Nat) (hb : b.size = 0) :
    createBlobUrl s (some b) cid ex now = (s, none) := by
  simp only [createBlobUrl]
  rw [if_pos hb]

theorem createBlobUrl_some {s : ManagerState} {b : Blob} (cid : String)
    (ex : List (String × String)) (now : Nat) (hb : ¬ b.size = 0) :
    createBlobUrl s (some b) cid ex now =
      ({ s with
          activeUrls := (JSMap.set s.activeUrls ("blob:" ++ toString s.nextId)
            { componentId := cid, createdAt := now, lastAccessed := now,
              accessCount := 0, size := b.size, type := b.type,
              isActive := true, extra := ex }),
          urlsByComponent :=
            (match JSMap.get s.urlsByComponent cid with
             | none => JSMap.set s.urlsByComponent cid
                 (JSSet.add [] ("blob:" ++ toString s.nextId))
             | some st => JSMap.set s.urlsByComponent cid
                 (JSSet.add st ("blob:" ++ toString s.nextId))),
          nextId := s.nextId + 1 },
       some ("blob:" ++ toString s.nextId)) := by
  simp only [createBlobUrl]
  rw [if_neg hb]

theorem createBlobUrl_flag_pres (s : ManagerState) (ob : Option Blob)
    (cid : String) (ex : List (String × String)) (now : Nat) (w : String)
    (h : (JSMap.get s.activeUrls w).map (fun m => m.isActive) = some true) :
    (JSMap.get (createBlobUrl s ob cid ex now).1.activeUrls w).map
      (fun m => m.isActive) = some true := by
  match ob with
  | none => exact h
  | some b =>
    by_cases hb : b.size = 0
    · rw [createBlobUrl_zero cid ex now hb]; exact h
    · simp only [createBlobUrl_some cid ex now hb]
      by_cases hw : w = "blob:" ++ toString s.nextId
      · subst hw; rw [JSMap.get_set_self]; rfl
      · rw [JSMap.get_set_ne _ _ _ hw]; exact h

theorem createOneItem_skip {cid : String} {now : Nat} {a : MultiAcc}
    {it : Item} (h : it.blob.isNone ∨ it.id = "") :
    createOneItem cid now a it = a := by
  unfold createOneItem
  rw [if_pos h]

theorem createOneItem_fail {cid : String} {now : Nat} {a : MultiAcc}
    {it : Item} {b : Blob} (hb : it.blob = some b) (hs : b.size = 0)
    (hid : ¬ it.id = "") :
    createOneItem cid now a it = a := by
  unfold createOneItem
  rw [if_neg (by simp [hb, hid]), hb,
      createBlobUrl_zero cid (JSMap.set it.extra "blobId" it.id) now hs]

theorem createOneItem_ok {cid : String} {now : Nat} {a : MultiAcc} {it : Item}
    {b : Blob} (hb : it.blob = some b) (hs : ¬ b.size = 0)
    (hid : ¬ it.id = "") :
    createOneItem cid now a it =
      { mgr := (createBlobUrl a.mgr (some b) cid
          (JSMap.set it.extra "blobId" it.id) now).1,
        ref := JSMap.set a.ref it.id ("blob:" ++ toString a.mgr.nextId),
        evs := a.evs } := by
  unfold createOneItem
  rw [if_neg (by simp [hb, hid]), hb,
      createBlobUrl_some cid (JSMap.set it.extra "blobId" it.id) now hs]

theorem createFold_active (cid : String) (now : Nat) :
    ∀ (items : List Item) (a : MultiAcc),
      (∀ i url, JSMap.get a.ref i = some url →
        (JSMap.get a.mgr.activeUrls url).map (fun m => m.isActive) =
          some true) →
      ∀ i url,
        JSMap.get (items.foldl (createOneItem cid now) a).ref i = some url →
        (JSMap.get (items.foldl (createOneItem cid now) a).mgr.activeUrls
          url).map (fun m => m.isActive) = some true := by
  intro items
  induction items with
  | nil => intro a h; exact h
  | cons it items ih =>
    intro a h
    rw [List.foldl_cons]
    apply ih
    by_cases hskip : it.blob.isNone ∨ it.id = ""
    · rw [createOneItem_skip hskip]; exact h
    · obtain ⟨b, hb⟩ : ∃ b, it.blob = some b := by
        cases hib : it.blob with
        | none => exact absurd (Or.inl (by simp [hib])) hskip
        | some b => exact ⟨b, rfl⟩
      have hid : ¬ it.id = "" := fun he => hskip (Or.inr he)
      by_cases hsz : b.size = 0
      · rw [createOneItem_fail hb hsz hid]; exact h
      · simp only [createOneItem_ok hb hsz hid]
        intro i url hiu
        by_cases hi : i = it.id
        · subst hi
          rw [JSMap.get_set_self] at hiu
          have hu : url = "blob:" ++ toString a.mgr.nextId :=
            (Option.some.inj hiu).symm
          subst hu
          simp only [createBlobUrl_some cid (JSMap.set it.extra "blobId" it.id)
            now hsz]
          rw [JSMap.get_set_self]
          rfl
        · rw [JSMap.get_set_ne _ _ _ hi] at hiu
          exact createBlobUrl_flag_pres a.mgr (some b) cid _ now url
            (h i url hiu)

theorem createOneItem_ref_pres (cid : String) (now : Nat) (a : MultiAcc)
    (it : Item) (i : String)
    (h : (JSMap.get a.ref i).isSome = true) :
    (JSMap.get (createOneItem cid now a it).ref i).isSome = true := by
  by_cases hskip : it.blob.isNone ∨ it.id = ""
  · rw [createOneItem_skip hskip]; exact h
  · obtain ⟨b, hb⟩ : ∃ b, it.blob = some b := by
      cases hib : it.blob with
      | none => exact absurd (Or.inl (by simp [hib])) hskip
      | some b => exact ⟨b, rfl⟩
    have hid : ¬ it.id = "" := fun he => hskip (Or.inr he)
    by_cases hsz : b.size = 0
    · rw [createOneItem_fail hb hsz hid]; exact h
    · simp only [createOneItem_ok hb hsz hid]
      by_cases hi : i = it.id
      · subst hi; rw [JSMap.get_set_self]; rfl
      · rw [JSMap.get_set_ne _ _ _ hi]; exact h

theorem createFold_ref_pres (cid : String) (now : Nat) :
    ∀ (items : List Item) (a : MultiAcc) (i : String),
      (JSMap.get a.ref i).isSome = true →
      (JSMap.get (items.foldl (createOneItem cid now) a).ref i).isSome =
        true := by
  intro items
  induction items with
  | nil => intro a i h; exact h
  | cons it items ih =>
    intro a i h
    rw [List.foldl_cons]
    exact ih _ i (createOneItem_ref_pres cid now a it i h)

theorem createFold_binding (cid : String) (now : Nat) :
    ∀ (items : List Item) (a : MultiAcc) (it : Item), it ∈ items →
      ∀ b : Blob, it.blob = some b → ¬ b.size = 0 → ¬ it.id = "" →
      (JSMap.get (items.foldl (createOneItem cid now) a).ref it.id).isSome =
        true := by
  intro items
  induction items with
  | nil => intro a it hin; cases hin
  | cons jt items ih =>
    intro a it hin b hb hsz hid
    rw [List.foldl_cons]
    rcases List.mem_cons.mp hin with he | hin'
    · subst he
      apply createFold_ref_pres cid now items
      simp only [createOneItem_ok hb hsz hid]
      rw [JSMap.get_set_self]
      rfl
    · exact ih _ it hin' b hb hsz hid

theorem createUrls_ref (mgr : ManagerState) (ms : MultiState) (cid : String)
    (items : List Item) (now : Nat) :
    (createUrls mgr ms cid items now).2.1.urlsRef =
      (items.foldl (createOneItem cid now)
        ⟨(revokeAllBound mgr ms.urlsRef).1, [],
          (revokeAllBound mgr ms.urlsRef).2⟩).ref := rfl

theorem createUrls_mgr (mgr : ManagerState) (ms : MultiState) (cid : String)
    (items : List Item) (now : Nat) :
    (createUrls mgr ms cid items now).1 =
      (items.foldl (createOneItem cid now)
        ⟨(revokeAllBound mgr ms.urlsRef).1, [],
          (revokeAllBound mgr ms.urlsRef).2⟩).mgr := rfl

/-
Claims.
-/

/-- C10: when the argument to `revokeBlobUrl` is null, the empty string, or
a string that does not begin with the handle-namespace `"blob:"`, the call
returns immediately with the registry state identical and an empty event
trace: no entry deactivated, no callback run, no release scheduled. -/
theorem C10_revoke_guard_noop (s : ManagerState) (u : String)
    (h : ¬ jsStartsWith u "blob:" = true) :
    revokeBlobUrl s none = (s, []) ∧
    revokeBlobUrl s (some "") = (s, []) ∧
    revokeBlobUrl s (some u) = (s, []) :=
  ⟨rfl, revokeBlobUrl_guard s (by decide), revokeBlobUrl_guard s h⟩

/-- Witness for C10 at a populated concrete state and a non-blob URL. -/
theorem C10_revoke_guard_noop_witness :
    revokeBlobUrl demoState1 none = (demoState1, []) ∧
    revokeBlobUrl demoState1 (some "") = (demoState1, []) ∧
    revokeBlobUrl demoState1 (some "http://x") = (demoState1, []) :=
  C10_revoke_guard_noop demoState1 "http://x" (by decide)

/-- C2: `createBlobUrl` on a zero-length blob fails — it returns the
JavaScript `null` (`none`), the failure value the source surfaces for a
rejected resource — and registers nothing observable: the whole manager
state, and hence `getStats()` and every table, is unchanged. -/
theorem C2_zero_size_rejected (s : ManagerState) (b : Blob) (cid : String)
    (ex : List (String × String)) (now : Nat) (h : b.size = 0) :
    createBlobUrl s (some b) cid ex now = (s, none) ∧
    getStats (createBlobUrl s (some b) cid ex now).1 = getStats s := by
  have h1 : createBlobUrl s (some b) cid ex now = (s, none) := by
    simp only [createBlobUrl]
    rw [if_pos h]
  exact ⟨h1, by rw [h1]⟩

/-- Witness for C2: a zero-size blob against a populated state. -/
theorem C2_zero_size_rejected_witness :
    createBlobUrl demoState1 (some ⟨0, "text/plain"⟩) "comp2" [] 9 =
      (demoState1, none) ∧
    getStats (createBlobUrl demoState1 (some ⟨0, "text/plain"⟩) "comp2" [] 9).1 =
      getStats demoState1 :=
  C2_zero_size_rejected demoState1 ⟨0, "text/plain"⟩ "comp2" [] 9 rfl

/-- C3 counterexample: in the state reached by one create followed by one
revoke (the delayed release still pending), `getStats().totalUrls` is 1
while the number of entries with `isActive = true` is 0 — the stats count
every entry of the table, not the active ones only. -/
theorem C3_counterexample :
    (getStats demoRevoked).totalUrls ≠ activeFlagCount demoRevoked := by decide

/-- C3 amended: `getStats().totalUrls` equals the number of entries present
in the registry table regardless of the `isActive` flag, and `totalSize`
sums byte sizes over all present entries; the equality with the number of
`isActive` entries claimed by the spec holds exactly in states where every
present entry is still flagged active (i.e. no revoke is awaiting its
delayed release). -/
theorem C3_stats_count_all_entries (s : ManagerState) :
    (getStats s).totalUrls = s.activeUrls.length ∧
    (getStats s).totalSize = (s.activeUrls.map (fun p => p.2.size)).sum ∧
    ((∀ p ∈ s.activeUrls, p.2.isActive = true) →
      (getStats s).totalUrls = activeFlagCount s) := by
  have hurls : (getStats s).totalUrls = s.activeUrls.length := by
    unfold getStats
    rw [statsFold_totalUrls]
    rfl
  refine ⟨hurls, ?_, ?_⟩
  · unfold getStats
    rw [statsFold_totalSize]
    simp
  · intro hall
    unfold activeFlagCount
    rw [List.filter_eq_self.mpr (by intro p hp; simpa using hall p hp)]
    exact hurls

/-- Witness for C3's amended statement on a fully active state. -/
theorem C3_stats_count_all_entries_witness :
    (getStats demoState1).totalUrls = activeFlagCount demoState1 :=
  (C3_stats_count_all_entries demoState1).2.2 (by decide)

/-- C9 counterexample: in `demoRevoked` the entry for `"blob:0"` has
`isActive = false`, yet `markUrlAccessed` is not a no-op on it (the source
never consults the flag), refuting the claim that the call is a no-op on
inactive entries. -/
theorem C9_counterexample :
    (JSMap.get demoRevoked.activeUrls "blob:0").map (fun m => m.isActive) =
      some false ∧
    markUrlAccessed demoRevoked "blob:0" 5 ≠ demoRevoked := by decide

/-- C9 amended: `markUrlAccessed(h)` is a no-op exactly when `h` is
unknown; when the entry exists — active or inactive — it increments
`accessCount` by one and sets `lastAccessed` to the current clock value,
changing nothing else; `lastAccessed` is non-decreasing provided the clock
is. -/
theorem C9_markAccessed (s : ManagerState) (u : String) (now : Nat) :
    (JSMap.get s.activeUrls u = none → markUrlAccessed s u now = s) ∧
    (∀ md, JSMap.get s.activeUrls u = some md →
      JSMap.get (markUrlAccessed s u now).activeUrls u =
        some ({ md with lastAccessed := now,
                        accessCount := md.accessCount + 1 }) ∧
      (∀ v, v ≠ u →
        JSMap.get (markUrlAccessed s u now).activeUrls v =
          JSMap.get s.activeUrls v) ∧
      (markUrlAccessed s u now).urlsByComponent = s.urlsByComponent ∧
      (markUrlAccessed s u now).cleanupCallbacks = s.cleanupCallbacks ∧
      (markUrlAccessed s u now).pendingReleases = s.pendingReleases ∧
      (markUrlAccessed s u now).nextId = s.nextId ∧
      (md.lastAccessed ≤ now → ∀ md',
        JSMap.get (markUrlAccessed s u now).activeUrls u = some md' →
        md.lastAccessed ≤ md'.lastAccessed)) := by
  constructor
  · intro h; exact markUrlAccessed_none now h
  · intro md hmd
    have hchar := markUrlAccessed_some now hmd
    rw [hchar]
    refine ⟨JSMap.get_set_self _ _ _,
            fun v hv => JSMap.get_set_ne _ _ _ hv, rfl, rfl, rfl, rfl, ?_⟩
    intro hle md' hmd'
    rw [JSMap.get_set_self] at hmd'
    have := Option.some.inj hmd'
    rw [← this]
    exact hle

/-- C8: `revokeComponentUrls(A)` iterates over the snapshot of A's URL set
taken before any revocation and never touches an entry owned by another
component: under the owner-index well-formedness invariant (URLs in A's set
belong to entries owned by A), every entry whose `componentId` is not A is
unchanged, its cleanup callback is unchanged, the owner index as a whole is
untouched by the synchronous call, and every delayed release the call
schedules targets A (so the later removals cannot touch another owner's
entries either). -/
theorem C8_owner_isolation (s : ManagerState) (A : String)
    (hwf : ∀ u ∈ (JSMap.get s.urlsByComponent A).getD [],
      ∀ md, JSMap.get s.activeUrls u = some md → md.componentId = A) :
    (∀ u md, JSMap.get s.activeUrls u = some md → md.componentId ≠ A →
      JSMap.get (revokeComponentUrls s A).1.activeUrls u = some md) ∧
    (revokeComponentUrls s A).1.urlsByComponent = s.urlsByComponent ∧
    (∀ u md, JSMap.get s.activeUrls u = some md → md.componentId ≠ A →
      JSMap.get (revokeComponentUrls s A).1.cleanupCallbacks u =
        JSMap.get s.cleanupCallbacks u) ∧
    (∀ p ∈ (revokeComponentUrls s A).1.pendingReleases,
      p ∈ s.pendingReleases ∨
        (p.componentId = A ∧
          p.url ∈ (JSMap.get s.urlsByComponent A).getD [])) := by
  rw [revokeComponentUrls_fst s A]
  refine ⟨?_, revokeList_urlsByComponent _ s, ?_, ?_⟩
  · intro u md hget hne
    have hnotin : u ∉ (JSMap.get s.urlsByComponent A).getD [] := by
      intro hin
      exact hne (hwf u hin md hget)
    rw [revokeList_get_ne s hnotin]
    exact hget
  · intro u md hget hne
    have hnotin : u ∉ (JSMap.get s.urlsByComponent A).getD [] := by
      intro hin
      exact hne (hwf u hin md hget)
    exact revokeList_cb_ne s hnotin
  · exact revokeList_pending_owner A _ s hwf

/-- Witness for C8: two owners, revoke one; applied at the concrete state
with entries for `"comp1"` and `"comp2"`. -/
theorem C8_owner_isolation_witness :
    JSMap.get (revokeComponentUrls c8State "comp1").1.activeUrls "blob:1" =
      some c8Md2 ∧
    (revokeComponentUrls c8State "comp1").1.urlsByComponent =
      c8State.urlsByComponent := by
  have h := C8_owner_isolation c8State "comp1" (by decide)
  exact ⟨h.1 "blob:1" c8Md2 (by decide) (by decide), h.2.1⟩

/-- C1 counterexample: immediately after `revokeBlobUrl("blob:0")` returns,
`isUrlActive("blob:0")` still reports true (the entry is only flag-flipped,
not removed) and `"blob:0"` is still in its owner's index — both parts of
the claimed synchronous deactivation fail on the code. -/
theorem C1_counterexample :
    isUrlActive demoRevoked "blob:0" = true ∧
    "blob:0" ∈ getComponentUrls demoRevoked "comp1" := by decide

/-- C1 amended: `revokeBlobUrl` synchronously flips the entry's `isActive`
flag to false and schedules the delayed release, but the entry stays in the
table — so `isUrlActive` (a membership test) still reports true — and the
owner index is untouched; only when the scheduled release fires is the
entry removed, after which `isUrlActive` is false and the handle is gone
from the owner's URL set. -/
theorem C1_deactivation_split (s : ManagerState) (u : String) (md : Metadata)
    (hpre : jsStartsWith u "blob:" = true)
    (hget : JSMap.get s.activeUrls u = some md) :
    JSMap.get ((revokeBlobUrl s (some u)).1).activeUrls u =
      some ({ md with isActive := false }) ∧
    isUrlActive (revokeBlobUrl s (some u)).1 u = true ∧
    ((revokeBlobUrl s (some u)).1).urlsByComponent = s.urlsByComponent ∧
    ((revokeBlobUrl s (some u)).1).pendingReleases =
      s.pendingReleases ++ [⟨u, md.componentId⟩] ∧
    isUrlActive
      (runRelease (revokeBlobUrl s (some u)).1 ⟨u, md.componentId⟩).1 u =
        false ∧
    (∀ st, JSMap.get
        (runRelease (revokeBlobUrl s (some u)).1
          ⟨u, md.componentId⟩).1.urlsByComponent md.componentId = some st →
      u ∉ st) := by
  refine ⟨revoke_self_flag hpre hget, ?_, revoke_urlsByComponent s (some u),
          ?_, ?_, ?_⟩
  · unfold isUrlActive JSMap.hasKey
    rw [revoke_self_flag hpre hget]
    rfl
  · rw [revokeBlobUrl_known hpre hget]
  · exact runRelease_not_active _ ⟨u, md.componentId⟩
  · intro st h
    exact runRelease_comp_not_mem _ ⟨u, md.componentId⟩ st h

/-- Witness for C1's amended statement on the concrete one-entry state. -/
theorem C1_deactivation_split_witness :
    JSMap.get ((revokeBlobUrl demoState1 (some "blob:0")).1).activeUrls
      "blob:0" = some ({ demoMd with isActive := false }) ∧
    isUrlActive (revokeBlobUrl demoState1 (some "blob:0")).1 "blob:0" = true ∧
    isUrlActive
      (runRelease (revokeBlobUrl demoState1 (some "blob:0")).1
        ⟨"blob:0", "comp1"⟩).1 "blob:0" = false := by
  have h := C1_deactivation_split demoState1 "blob:0" demoMd (by decide)
    (by decide)
  exact ⟨h.1, h.2.1, h.2.2.2.2.1⟩

/-- C5: `revokeBlobUrl` never throws — every branch, including unknown,
already-revoked, and malformed handles, returns normally (the embedding is
a total function whose only events are logged warnings and caught callback
errors) — and revoking the same handle twice in succession leaves the same
entry table, owner index, callback table and stats as revoking it once
(only the internal delayed-release queue gains a second, redundant entry).
-/
theorem C5_revoke_idempotent (s : ManagerState) (u : Option String) :
    ((revokeBlobUrl (revokeBlobUrl s u).1 u).1).activeUrls =
      ((revokeBlobUrl s u).1).activeUrls ∧
    ((revokeBlobUrl (revokeBlobUrl s u).1 u).1).urlsByComponent =
      ((revokeBlobUrl s u).1).urlsByComponent ∧
    ((revokeBlobUrl (revokeBlobUrl s u).1 u).1).cleanupCallbacks =
      ((revokeBlobUrl s u).1).cleanupCallbacks ∧
    getStats ((revokeBlobUrl (revokeBlobUrl s u).1 u).1) =
      getStats ((revokeBlobUrl s u).1) := by
  match u with
  | none => exact ⟨rfl, rfl, rfl, rfl⟩
  | some v =>
    by_cases hpre : jsStartsWith v "blob:" = true
    · cases hget : JSMap.get s.activeUrls v with
      | none =>
        have h1 : (revokeBlobUrl s (some v)).1 = s := by
          rw [revokeBlobUrl_unknown hpre hget]
        simp [h1]
      | some md =>
        have hget1 : JSMap.get ((revokeBlobUrl s (some v)).1).activeUrls v =
            some ({ md with isActive := false }) := revoke_self_flag hpre hget
        have hcb1 : JSMap.get
            ((revokeBlobUrl s (some v)).1).cleanupCallbacks v = none := by
          rw [revokeBlobUrl_known hpre hget]
          cases hcb : JSMap.get s.cleanupCallbacks v with
          | none => simp [hcb]
          | some cb => simp [hcb, JSMap.get_del_self]
        have hchar2 := revokeBlobUrl_known hpre hget1
        have hA : ((revokeBlobUrl (revokeBlobUrl s (some v)).1 (some v)).1).activeUrls =
            ((revokeBlobUrl s (some v)).1).activeUrls := by
          rw [hchar2]
          apply JSMap.set_eq_self
          · unfold JSMap.hasKey
            rw [hget1]
            rfl
          · intro p hp hpk
            have hp' : p ∈ JSMap.set s.activeUrls v
                ({ md with isActive := false }) := by
              have hmaps : ((revokeBlobUrl s (some v)).1).activeUrls =
                  JSMap.set s.activeUrls v ({ md with isActive := false }) := by
                rw [revokeBlobUrl_known hpre hget]
              rw [← hmaps]
              exact hp
            exact JSMap.mem_set hp' hpk
        have hB : ((revokeBlobUrl (revokeBlobUrl s (some v)).1 (some v)).1).urlsByComponent =
            ((revokeBlobUrl s (some v)).1).urlsByComponent :=
          revoke_urlsByComponent _ (some v)
        have hC : ((revokeBlobUrl (revokeBlobUrl s (some v)).1 (some v)).1).cleanupCallbacks =
            ((revokeBlobUrl s (some v)).1).cleanupCallbacks := by
          rw [hchar2, hcb1]
        exact ⟨hA, hB, hC, getStats_congr hA hB⟩
    · have h1 : (revokeBlobUrl s (some v)).1 = s := by
        rw [revokeBlobUrl_guard s hpre]
      simp [h1]

/-- C6: when a cleanup callback is registered for a known handle,
`revokeBlobUrl` invokes it exactly once and before the underlying resource
is released (no platform-release event occurs in the synchronous call; the
release only happens when the delayed release fires), removes it from the
callback table afterward, and a thrown exception is caught and logged and
never escapes — the entry still ends inactive and the table no longer
contains the handle; a second revoke invokes no callback, and registering a
second callback for the same handle overwrites the first. -/
theorem C6_cleanup_callback (s : ManagerState) (u : String) (md : Metadata)
    (cb : Callback)
    (hpre : jsStartsWith u "blob:" = true)
    (hget : JSMap.get s.activeUrls u = some md)
    (hcb : JSMap.get s.cleanupCallbacks u = some cb) :
    ((revokeBlobUrl s (some u)).2).count (Event.callbackInvoked u) = 1 ∧
    (cb.throws = true →
      Event.callbackErrorLogged u ∈ (revokeBlobUrl s (some u)).2) ∧
    Event.platformRelease u ∉ (revokeBlobUrl s (some u)).2 ∧
    JSMap.get ((revokeBlobUrl s (some u)).1).cleanupCallbacks u = none ∧
    JSMap.get ((revokeBlobUrl s (some u)).1).activeUrls u =
      some ({ md with isActive := false }) ∧
    ((revokeBlobUrl (revokeBlobUrl s (some u)).1 (some u)).2).count
      (Event.callbackInvoked u) = 0 ∧
    (∀ c1 c2 : Callback,
      JSMap.get (registerCleanupCallback (registerCleanupCallback s u c1) u
        c2).cleanupCallbacks u = some c2) := by
  have hchar := revokeBlobUrl_known hpre hget
  have hevs : (revokeBlobUrl s (some u)).2 =
      (if cb.throws then [Event.callbackInvoked u, Event.callbackErrorLogged u]
       else [Event.callbackInvoked u]) := by
    rw [hchar, hcb]
  have hcb1 : JSMap.get ((revokeBlobUrl s (some u)).1).cleanupCallbacks u =
      none := by
    rw [hchar]
    simp [hcb, JSMap.get_del_self]
  have hget1 := revoke_self_flag hpre hget
  have hevs2 : (revokeBlobUrl (revokeBlobUrl s (some u)).1 (some u)).2 = [] := by
    rw [revokeBlobUrl_known hpre hget1, hcb1]
  refine ⟨?_, ?_, ?_, hcb1, hget1, ?_, ?_⟩
  · rw [hevs]; cases hth : cb.throws <;> simp
  · intro hth; rw [hevs, if_pos hth]; simp
  · rw [hevs]; cases hth : cb.throws <;> simp
  · rw [hevs2]; rfl
  · intro c1 c2
    unfold registerCleanupCallback
    exact JSMap.get_set_self _ _ _

/-- Witness for C6 on a concrete state with a throwing callback. -/
theorem C6_cleanup_callback_witness :
    ((revokeBlobUrl demoWithCb (some "blob:0")).2).count
      (Event.callbackInvoked "blob:0") = 1 ∧
    Event.callbackErrorLogged "blob:0" ∈
      (revokeBlobUrl demoWithCb (some "blob:0")).2 ∧
    JSMap.get ((revokeBlobUrl demoWithCb (some "blob:0")).1).cleanupCallbacks
      "blob:0" = none ∧
    JSMap.get ((revokeBlobUrl demoWithCb (some "blob:0")).1).activeUrls
      "blob:0" = some ({ demoMd with isActive := false }) := by
  have h := C6_cleanup_callback demoWithCb "blob:0" demoMd ⟨true⟩ (by decide)
    (by decide) (by decide)
  exact ⟨h.1, h.2.1 rfl, h.2.2.2.1, h.2.2.2.2.1⟩

/-- C7: `cleanup()` calls the platform-level release synchronously for
every tracked handle (the delayed-release queue is not used: it is left
untouched), clears all three tables — leaving exactly the tables of a
freshly constructed manager — and a subsequent create of a nonempty blob
succeeds just as on a fresh manager. -/
theorem C7_teardown (s : ManagerState) :
    (cleanup s).1.activeUrls = initState.activeUrls ∧
    (cleanup s).1.urlsByComponent = initState.urlsByComponent ∧
    (cleanup s).1.cleanupCallbacks = initState.cleanupCallbacks ∧
    (cleanup s).1.pendingReleases = s.pendingReleases ∧
    (∀ p ∈ s.activeUrls, Event.platformRelease p.1 ∈ (cleanup s).2) ∧
    (∀ (b : Blob) (cid : String) (ex : List (String × String)) (now : Nat),
      0 < b.size →
      ((createBlobUrl (cleanup s).1 (some b) cid ex now).2).isSome = true) := by
  refine ⟨rfl, rfl, rfl, rfl, ?_, ?_⟩
  · intro p hp
    exact List.mem_map.mpr ⟨p, hp, rfl⟩
  · intro b cid ex now hb
    simp only [createBlobUrl]
    rw [if_neg (by omega)]
    rfl

/-- Witness for C7 on the state with a revoked entry and a registered
callback pending. -/
theorem C7_teardown_witness :
    (cleanup demoRevoked).1.activeUrls = initState.activeUrls ∧
    Event.platformRelease "blob:0" ∈ (cleanup demoRevoked).2 ∧
    ((createBlobUrl (cleanup demoRevoked).1 (some ⟨7, "text/plain"⟩) "comp9"
      [] 4).2).isSome = true := by
  have h := C7_teardown demoRevoked
  refine ⟨h.1, ?_, h.2.2.2.2.2 ⟨7, "text/plain"⟩ "comp9" [] 4 (by decide)⟩
  exact h.2.2.2.2.1 ("blob:0", { demoMd with isActive := false }) (by decide)

/-- Witness for C9's amended statement on a known entry. -/
theorem C9_markAccessed_witness :
    JSMap.get (markUrlAccessed demoState1 "blob:0" 3).activeUrls "blob:0" =
      some ({ demoMd with lastAccessed := 3,
                          accessCount := demoMd.accessCount + 1 }) :=
  ((C9_markAccessed demoState1 "blob:0" 3).2 demoMd (by decide)).1

/-- C4 counterexample: rebinding the same single item `"a"` twice gives it
a different handle each time — `createUrls` is a blanket teardown and
recreate, not a reconciliation diff: the old handle `"blob:0"` is revoked
(its entry ends inactive) even though item `"a"` is present in both the old
and the new set, and the new binding is `"blob:1"`. -/
theorem C4_counterexample :
    JSMap.get (c4Run2.2.1).urlsRef "a" ≠ JSMap.get (c4Run1.2.1).urlsRef "a" ∧
    (JSMap.get c4Run2.1.activeUrls "blob:0").map (fun m => m.isActive) =
      some false := by decide

/-- C4 amended: `createUrls` (the spec's `rebindAll`) revokes every
previously bound handle during its teardown phase — including the handles
of items present in both the old and the new set — and then creates a
fresh handle for every valid item of the new array, leaving each such item
bound to a freshly created, active handle (rather than keeping its old
one). -/
theorem C4_blanket_rebind (mgr : ManagerState) (ms : MultiState) (cid : String)
    (items : List Item) (now : Nat) (u : String) (md : Metadata)
    (hbound : u ∈ ms.urlsRef.map (fun p => p.2))
    (hget : JSMap.get mgr.activeUrls u = some md)
    (hpre : jsStartsWith u "blob:" = true) :
    (JSMap.get (revokeAllBound mgr ms.urlsRef).1.activeUrls u).map
      (fun m => m.isActive) = some false ∧
    (∀ it ∈ items, ∀ b : Blob, it.blob = some b → ¬ b.size = 0 →
      ¬ it.id = "" →
      ∃ url,
        JSMap.get (createUrls mgr ms cid items now).2.1.urlsRef it.id =
          some url ∧
        (JSMap.get (createUrls mgr ms cid items now).1.activeUrls url).map
          (fun m => m.isActive) = some true) := by
  constructor
  · rw [revokeAllBound_fst]
    exact revokeList_deactivates hpre _ mgr hbound (by rw [hget]; rfl)
  · intro it hin b hb hsz hid
    have hsome := createFold_binding cid now items
      ⟨(revokeAllBound mgr ms.urlsRef).1, [],
        (revokeAllBound mgr ms.urlsRef).2⟩ it hin b hb hsz hid
    obtain ⟨url, hurl⟩ := Option.isSome_iff_exists.mp hsome
    refine ⟨url, ?_, ?_⟩
    · rw [createUrls_ref]
      exact hurl
    · rw [createUrls_mgr]
      refine createFold_active cid now items _ ?_ it.id url hurl
      intro i u0 h0
      exact absurd h0 (by simp [JSMap.get])

/-- Witness for C4's amended statement: the second concrete run, where item
`"a"` is rebound from `"blob:0"` to the fresh active handle `"blob:1"`. -/
theorem C4_blanket_rebind_witness :
    (JSMap.get (revokeAllBound c4Run1.1 c4Run1.2.1.urlsRef).1.activeUrls
      "blob:0").map (fun m => m.isActive) = some false ∧
    JSMap.get (createUrls c4Run1.1 c4Run1.2.1 "multi" [c4Item] 1).2.1.urlsRef
      "a" = some "blob:1" ∧
    (JSMap.get (createUrls c4Run1.1 c4Run1.2.1 "multi" [c4Item]
      1).1.activeUrls "blob:1").map (fun m => m.isActive) = some true := by
  have h := C4_blanket_rebind c4Run1.1 c4Run1.2.1 "multi" [c4Item] 1 "blob:0"
    { componentId := "multi", createdAt := 0, lastAccessed := 0,
      accessCount := 0, size := 4, type := "text/plain", isActive := true,
      extra := [("blobId", "a")] }
    (by decide) (by decide) (by decide)
  obtain ⟨url, h1, h2⟩ := h.2 c4Item (List.mem_cons_self c4Item [])
    ⟨4, "text/plain"⟩ rfl (by decide) (by decide)
  have hconc : JSMap.get (createUrls c4Run1.1 c4Run1.2.1 "multi" [c4Item]
      1).2.1.urlsRef "a" = some "blob:1" := by decide
  have hu : url = "blob:1" := Option.some.inj ((h1.symm).trans hconc)
  subst hu
  exact ⟨h.1, h1, h2⟩

end BlobUrl
